import Mathlib

/-!
# Verification of the element test-execution engine

Shallow embedding of the test-execution engine of this repository:
the `Test` engine (`runWithCancellation`, `runStep`,
`summarizeStepBeforeRun`, `summarizeStepAfterStopRunning`,
`liftToStructuredError`) and the `Looper` of `Runner.ts`.

Modelling conventions:
* JavaScript objects become Lean structures; object spread
  (`{ ...a, ...b }`) over settings becomes a per-field override where the
  overriding record carries `Option`-typed settings fields.
* The engine's asynchronous code is single-threaded and strictly
  sequential (steps never overlap), so `async/await` sequencing becomes
  plain sequential state passing on an explicit `EngineState`.
  The embedding covers runs in which the shared `CancellationToken` is
  never requested; the cancellation race is real-time behaviour and is
  treated separately.
* `try/catch/finally` becomes an explicit success flag threaded through
  the control flow, with the `finally` effects applied on both outcomes.
* External collaborators (network interceptor, observers, hooks) are
  recorded as events in an event trace; a hook's body is represented by
  its settled outcome (`ok : Bool`, where `false` means it threw or timed
  out).  Wall-clock delays (`doStepDelay`, the `Looper` duration timer)
  have no state effect in the model; theorems about the `Looper` restrict
  to `duration <= 0`, where the timer is never armed.
* `Test.subTitle` / `getStepSubtitle` (pure presentation strings) are
  omitted; no claim mentions them.
* The sources of `StepIterator`, `CancellationToken` and
  `StructuredError` are not part of the visible fragment; the definitions
  that stand in for them are marked `Modelled from the spec:` and follow
  the specification's words.
-/

/-- One recorded outcome row kind for the per-iteration summary
(`StepResult` in `Step.ts`). -/
inductive StepResult
  | PASSED
  | FAILED
  | SKIPPED
  | UNEXECUTED
deriving Repr, DecidableEq

/-- Structure `SummaryStep`: `{stepName, result}` row of the iteration summary. -/
structure SummaryStep where
  stepName : String
  result : StepResult
deriving Repr, DecidableEq

/-- Structure `RepeatDescriptor`: planned repetition count and current counter. -/
structure RepeatDescriptor where
  count : Nat
  iteration : Nat
deriving Repr, DecidableEq

/-- A raised JavaScript failure.  A `StructuredError` instance is an
`Error` carrying the marker `_structured === 'yes'` together with a kind
tag and an originating-phase tag, so one type represents both bare and
structured failures.  Constructor details of `StructuredError`
(`utils/StructuredError` is not in the visible fragment) are
modelled from the spec: `{message, kind-tag, originalError, stackCopy}`. -/
structure JSError where
  name : String
  message : String
  structured : Bool := false
  kind : String := ""
  phase : String := ""
  originalName : String := ""
  stackCopied : Bool := false
deriving Repr, DecidableEq

/-- JavaScript `String.prototype.startsWith`, evaluated over the
character lists of the two strings. -/
def strStartsWith (s p : String) : Bool := p.data.isPrefixOf s.data

/-- Source `Test.liftToStructuredError`: classify a raised
failure.  Name beginning with `"AssertionError"` is tagged `assertion`
(with the stack copied from the original error); an already-structured
failure is returned unchanged; anything else is wrapped via
`StructuredError.wrapBareError(error, {_kind: 'empty'}, 'test')`. -/
def liftToStructuredError (error : JSError) : JSError :=
  if strStartsWith error.name "AssertionError" then
    { name := "StructuredError", message := error.message, structured := true,
      kind := "assertion", phase := "", originalName := error.name,
      stackCopied := true }
  else if error.structured then
    error
  else
    { name := "StructuredError", message := error.message, structured := true,
      kind := "empty", phase := "test", originalName := error.name,
      stackCopied := true }

/-- The settled result of a step body (`step.fn`). -/
inductive StepOutcome
  | success
  | failure (err : JSError)
deriving Repr, DecidableEq

def StepOutcome.isSuccess : StepOutcome → Bool
  | .success => true
  | .failure _ => false

/-- The transient engine-owned scratch record attached to a step
(`step.prop`).  `runStep` replaces the whole record, so `recoveryTries`
becomes absent after a run. -/
structure StepProp where
  executed : Bool
  recoveryTries : Option Nat := none
deriving Repr, DecidableEq

/-- Per-step options: gating flags, an optional runtime predicate
(represented by its evaluated boolean), an optional repeat descriptor
(`repeat` in the source; renamed `repeatD` because `repeat` is a Lean
keyword), and per-step settings overrides (the settings-typed own
properties that the spread `{...this.settings, ...step.options}`
copies over the global settings). -/
structure StepOptions where
  skip : Bool := false
  pending : Bool := false
  once : Bool := false
  predicate : Option Bool := none
  repeatD : Option RepeatDescriptor := none
  waitTimeout : Option Nat := none
  stepDelay : Option Int := none
  tries : Option Nat := none
deriving Repr, DecidableEq

/-- A scripted step: unique name, options, body (represented by its
settled outcome) and the transient `prop` record. -/
structure Step where
  name : String
  options : StepOptions := {}
  fnOutcome : StepOutcome := .success
  prop : Option StepProp := none
deriving Repr, DecidableEq

/-- Settings record `ConcreteTestSettings` (the merged configuration), restricted to the
fields the engine fragment reads or writes. -/
structure ConcreteTestSettings where
  loopCount : Int := 1
  duration : Int := 0
  stepDelay : Int := 0
  actionDelay : Int := 0
  waitTimeout : Nat := 30
  tries : Nat := 0
deriving Repr, DecidableEq

/-- Spread `browser.settings = { ...this.settings, ...step.options }`: the
global settings with the step's settings-typed option overrides
applied field-wise (a missing option leaves the global value). -/
def mergeStepOptions (settings : ConcreteTestSettings) (options : StepOptions) :
    ConcreteTestSettings :=
  { settings with
    waitTimeout := options.waitTimeout.getD settings.waitTimeout
    stepDelay := options.stepDelay.getD settings.stepDelay
    tries := options.tries.getD settings.tries }

/-- A lifecycle hook function (`HookBase`): its wait timeout and its
settled outcome (`ok = false` means it threw or its timeout timer won
the race in `doHookFnWithTimeout`). -/
structure HookBase where
  waitTimeout : Nat := 30
  ok : Bool := true
deriving Repr, DecidableEq

/-- The `Hook` set of a script: the four ordered hook sequences. -/
structure Hook where
  beforeAll : List HookBase := []
  afterAll : List HookBase := []
  beforeEach : List HookBase := []
  afterEach : List HookBase := []
deriving Repr, DecidableEq

/-- The script bundle as consumed by one iteration: settings, ordered
steps, the recovery mapping (step name to the settled result of its
registered recovery sequence: `true` iff the sequence completes without
error within the configured tries), hooks, and whether the data feeder
is exhausted (`testData.feed()` returning `null`). -/
structure ScriptCfg where
  settings : ConcreteTestSettings := {}
  steps : List Step := []
  recoverySteps : List (String × Bool) := []
  hook : Hook := {}
  dataExhausted : Bool := false
deriving Repr, DecidableEq

/-- Lookup in the recovery mapping by the failing step's name. -/
def lookupRecovery : List (String × Bool) → String → Option Bool
  | [], _ => none
  | (k, v) :: rest, name => if k == name then some v else lookupRecovery rest name

/-- Modelled from the spec: `StepIterator.callRecovery` (the
`StepIterator` source is not in the visible fragment).  It looks up the
recovery sequence keyed by the failing step's identity; if none is
registered, recovery fails immediately; otherwise it executes the
recovery step sequence up to a bounded number of tries and returns true
only if the sequence completes without error.  The spec does not have
recovery touch the engine's global settings or the iteration summary;
the per-attempt `step.prop.recoveryTries` ordinal is presentation-only
and omitted. -/
def callRecovery (registered : Option Bool) : Bool :=
  registered.getD false

/-- Modelled from the spec: `StepIterator.callCondition` evaluates the
step's `once`/`pending`/`skip` gating state; a gated step is excluded
from execution (the caller then records its summary row via
`summarizeStepBeforeRun`). -/
def callCondition (step : Step) (iteration : Nat) : Bool :=
  !(step.options.pending || (step.options.once && decide (iteration > 1))
      || step.options.skip)

/-- Source `Test.summarizeStepBeforeRun`: the summary rows
recorded for a step that the gate excluded from execution. -/
def summarizeStepBeforeRun (step : Step) (iteration : Nat) : List SummaryStep :=
  if step.options.pending || (step.options.once && decide (iteration > 1)) then
    [{ stepName := step.name, result := StepResult.UNEXECUTED }]
  else if step.options.skip then
    [{ stepName := step.name, result := StepResult.SKIPPED }]
  else
    []

/-- The rows emitted by the `do { repeat.iteration += 1; push UNEXECUTED }
while (repeat.iteration < repeat.count)` loop inside
`Test.summarizeStepAfterStopRunning`, entered with the descriptor's
current counter value. -/
def repeatUnexecutedRows (name : String) (count iteration : Nat) : List SummaryStep :=
  { stepName := name, result := StepResult.UNEXECUTED } ::
    (if h : iteration + 1 < count then repeatUnexecutedRows name count (iteration + 1)
     else [])
termination_by count - iteration
decreasing_by omega

/-- Helper `countRepeatStep` (local to `Test.summarizeStepAfterStopRunning`):
for a step with a repeat descriptor, emit the remaining-repetition rows
when `iteration > 0`, reset the counter to 0 and report `true`;
otherwise report `false`.  Returns the updated step, the emitted rows,
and the boolean. -/
def countRepeatStep (step : Step) : Step × List SummaryStep × Bool :=
  match step.options.repeatD with
  | some r =>
    let rows := if r.iteration > 0 then repeatUnexecutedRows step.name r.count r.iteration
                else []
    ({ step with options := { step.options with repeatD := some { r with iteration := 0 } } },
      rows, true)
  | none => (step, [], false)

/-- Helper `summarizedUnexecutedStep` (local to
`Test.summarizeStepAfterStopRunning`): run `countRepeatStep`; if it
handled the step, stop, otherwise push one UNEXECUTED row. -/
def summarizedUnexecutedStep (step : Step) : Step × List SummaryStep :=
  let (step', rows, countRepeatStepDone) := countRepeatStep step
  if countRepeatStepDone then (step', rows)
  else (step', rows ++ [{ stepName := step.name, result := StepResult.UNEXECUTED }])

/-- Source `Test.summarizeStepAfterStopRunning`, applied through
`stepIterator.loopUnexecutedSteps` — modelled from the spec: the
iterator visits, in declaration order, every step not reached by the
halted traversal.  Returns the updated steps and the emitted rows. -/
def summarizeStepAfterStopRunning : List Step → List Step × List SummaryStep
  | [] => ([], [])
  | s :: rest =>
    let (s', rows) := summarizedUnexecutedStep s
    let (rest', restRows) := summarizeStepAfterStopRunning rest
    (s' :: rest', rows ++ restRows)

/-- Class `Looper` of `Runner.ts`: iteration counter, cancelled flag and the
configured loop count.  The duration timer is real-time behaviour; the
model covers configurations with `duration <= 0`, where the timer is
never armed and `cancelled` can only be set through construction or
`stop()`. -/
structure Looper where
  iterations : Nat := 0
  cancelled : Bool
  loopCount : Int
deriving Repr, DecidableEq

/-- The `Looper` constructor (`duration <= 0` case): `cancelled = !running`. -/
def Looper.make (settings : ConcreteTestSettings) (running : Bool) : Looper :=
  { iterations := 0, cancelled := !running, loopCount := settings.loopCount }

/-- Getter `Looper.continueLoop`: not cancelled and (loops left or unbounded). -/
def Looper.continueLoop (l : Looper) : Bool :=
  let hasInfiniteLoops := decide (l.loopCount ≤ 0)
  let hasLoopsLeft := decide ((l.iterations : Int) < l.loopCount)
  !l.cancelled && (hasLoopsLeft || hasInfiniteLoops)

/-- Method `Looper.run` with explicit fuel for the `while (continueLoop)` loop:
returns the final looper, the list of iteration numbers passed to the
iterator (the code invokes `iterator(++this.iterations)`), and
`some totalIterations` if the loop exited within the fuel (`none` means
the loop was still running).  The iterator is the engine's iteration
body; it has no access to the looper (the claims under verification
involve no `stop()` call). -/
def Looper.runFuel (l : Looper) : Nat → Looper × List Nat × Option Nat
  | 0 => (l, [], none)
  | fuel + 1 =>
    if l.continueLoop then
      let l' : Looper := { l with iterations := l.iterations + 1 }
      let (lf, calls, r) := l'.runFuel fuel
      (lf, l'.iterations :: calls, r)
    else
      (l, [], some l.iterations)

/-- The lifecycle point of a hook sequence. -/
inductive HookKind
  | beforeAll
  | afterAll
  | beforeEach
  | afterEach
deriving Repr, DecidableEq

/-- Observable engine events: collaborator attachment, observer
notifications, hook-sequence invocations, recovery dispatch (with the
tries-override argument it was passed), and the unexecuted-step
summarization of the teardown. -/
inductive Event
  | interceptorAttached
  | interceptorDetached
  | observerBefore
  | observerAfter
  | observerBeforeStep (name : String)
  | observerOnStepPassed (name : String)
  | observerOnStepError (name : String) (kind : String)
  | observerAfterStep (name : String)
  | hookRun (k : HookKind)
  | recoveryCalled (triesOverride : Nat)
  | summarized
deriving Repr, DecidableEq

/-- The mutable engine state during one iteration: the engine's global
settings (`this.settings`), the execution target's settings
(`browser.settings`, a value copy — reference aliasing between the two
objects is broken before any code path that distinguishes them, see the
header comment), the iteration's failed flag, the summary rows, and the
event trace. -/
structure EngineState where
  settings : ConcreteTestSettings
  browserSettings : ConcreteTestSettings
  failed : Bool
  summaryStep : List SummaryStep
  events : List Event
deriving Repr, DecidableEq

/-- Source `Test.runHookFn`: for each hook in order, replace the target's
settings by a copy of the global settings with the hook's wait timeout,
then run the hook under its timeout; the first failure aborts the
sequence (the thrown error propagates).  Returns the target's settings
after the sequence together with whether every hook completed. -/
def runHookFn (settings : ConcreteTestSettings) (hooks : List HookBase)
    (browserSettings : ConcreteTestSettings) : ConcreteTestSettings × Bool :=
  match hooks with
  | [] => (browserSettings, true)
  | h :: rest =>
    let browserSettings' := { settings with waitTimeout := h.waitTimeout }
    if h.ok then runHookFn settings rest browserSettings'
    else (browserSettings', false)

/-- The result of `Test.runStep`: the state after the step, the updated
step (its `prop` record was replaced), and the value the target's
settings held while the step body ran. -/
structure RunStepOut where
  state : EngineState
  step : Step
  during : ConcreteTestSettings
deriving Repr, DecidableEq

/-- Source `Test.runStep`: notify `beforeStep`; snapshot the
target's settings; replace them by the global settings merged with the
step's options for the body; run the body; in the `finally` block
restore the snapshot and replace `step.prop`; then record FAILED (after
classifying the error and notifying `onStepError`) or PASSED (after
notifying `onStepPassed`); notify `afterStep`.  The inter-step delay has
no state effect and is omitted. -/
def runStep (st : EngineState) (step : Step) : RunStepOut :=
  let st := { st with events := st.events ++ [Event.observerBeforeStep step.name] }
  let originalBrowserSettings := st.browserSettings
  let during := mergeStepOptions st.settings step.options
  let error : Option JSError :=
    match step.fnOutcome with
    | .success => none
    | .failure e => some e
  -- finally: restore the settings snapshot, replace step.prop
  -- (`step.options.repeat?.iteration !== 0` also holds when the step has
  -- no repeat descriptor, so `executed := true` only for a descriptor at 0)
  let st := { st with browserSettings := originalBrowserSettings }
  let executedFlag :=
    match step.options.repeatD with
    | some r => decide (r.iteration = 0)
    | none => false
  let step := { step with prop := some { executed := executedFlag } }
  match error with
  | some e =>
    let st := { st with failed := true }
    let st := { st with events := st.events ++
      [Event.observerOnStepError step.name (liftToStructuredError e).kind] }
    let st := { st with summaryStep := st.summaryStep ++
      [({ stepName := step.name, result := StepResult.FAILED } : SummaryStep)] }
    let st := { st with events := st.events ++ [Event.observerAfterStep step.name] }
    { state := st, step := step, during := during }
  | none =>
    let st := { st with events := st.events ++ [Event.observerOnStepPassed step.name] }
    let st := { st with summaryStep := st.summaryStep ++
      [({ stepName := step.name, result := StepResult.PASSED } : SummaryStep)] }
    let st := { st with events := st.events ++ [Event.observerAfterStep step.name] }
    { state := st, step := step, during := during }

/-- The `afterEach` tail of the step executor. -/
def runAfterEachHook (cfg : ScriptCfg) (st : EngineState) (step : Step) :
    EngineState × Step × Bool :=
  let st := { st with events := st.events ++ [Event.hookRun HookKind.afterEach] }
  let r := runHookFn st.settings cfg.hook.afterEach st.browserSettings
  ({ st with browserSettings := r.1 }, step, r.2)

/-- The executor closure that `runWithCancellation` passes to
`stepIterator.run` for each step: run the `beforeEach` hooks, evaluate
the gate (recording the gated step's summary row), evaluate an optional
predicate (a false predicate silently skips the body), run the step,
and on failure assign `this.settings.tries = 0` while passing that value
to `callRecovery` — a successful recovery clears the failed flag, an
unsuccessful one throws a bare error that unwinds the traversal.
Returns the state, the updated step, and `false` when the executor
threw (hook failure or exhausted recovery). -/
def stepExecutor (cfg : ScriptCfg) (iteration : Nat) (st : EngineState) (step : Step) :
    EngineState × Step × Bool :=
  let st := { st with events := st.events ++ [Event.hookRun HookKind.beforeEach] }
  let r1 := runHookFn st.settings cfg.hook.beforeEach st.browserSettings
  let st := { st with browserSettings := r1.1 }
  if r1.2 = false then (st, step, false)
  else if callCondition step iteration = false then
    ({ st with summaryStep := st.summaryStep ++ summarizeStepBeforeRun step iteration },
      step, true)
  else if step.options.predicate.getD true = false then (st, step, true)
  else
    let out := runStep st step
    let st := out.state
    let step := out.step
    if st.failed then
      -- the argument `(this.settings.tries = 0)` assigns 0 to the global
      -- settings field and evaluates to 0
      let triesOverride : Nat := 0
      let st := { st with settings := { st.settings with tries := triesOverride } }
      let result := callRecovery (lookupRecovery cfg.recoverySteps step.name)
      let st := { st with events := st.events ++ [Event.recoveryCalled triesOverride] }
      if result then
        let st := { st with failed := false }
        runAfterEachHook cfg st step
      else (st, step, false)
    else runAfterEachHook cfg st step

/-- Modelled from the spec: `StepIterator.run` sequentially passes each
step to the executor in declaration order; a thrown error unwinds the
traversal.  Returns the final state, the steps passed to the executor
(updated), the steps not reached, and whether the traversal completed. -/
def runSteps (cfg : ScriptCfg) (iteration : Nat) (st : EngineState) :
    List Step → EngineState × List Step × List Step × Bool
  | [] => (st, [], [], true)
  | s :: rest =>
    match stepExecutor cfg iteration st s with
    | (st', s', true) =>
      let (stf, processed, unreached, ok) := runSteps cfg iteration st' rest
      (stf, s' :: processed, unreached, ok)
    | (st', s', false) => (st', [s'], rest, false)

/-- The overall result of one iteration: whether no error propagated
out of `runWithCancellation`, the final engine state, and the final
steps list. -/
structure RunOutcome where
  ok : Bool
  state : EngineState
  steps : List Step
deriving Repr, DecidableEq

/-- Try-block body of `runWithCancellation`: observer `before`
notification, data feed (exhaustion is fatal before any step runs),
`beforeAll` hooks, then the step traversal. -/
def runMainPhase (cfg : ScriptCfg) (iteration : Nat) (st : EngineState) :
    EngineState × List Step × List Step × Bool :=
  let st := { st with events := st.events ++ [Event.observerBefore] }
  if cfg.dataExhausted then (st, [], cfg.steps, false)
  else
    let st := { st with events := st.events ++ [Event.hookRun HookKind.beforeAll] }
    let r := runHookFn st.settings cfg.hook.beforeAll st.browserSettings
    let st := { st with browserSettings := r.1 }
    if r.2 = false then (st, [], cfg.steps, false)
    else runSteps cfg iteration st cfg.steps

/-- Initial engine state of one iteration: the failed flag cleared, an
empty trace opened by the interceptor attachment, and the execution
target constructed over the global settings. -/
def initialState (cfg : ScriptCfg) : EngineState :=
  { settings := cfg.settings, browserSettings := cfg.settings,
    failed := false, summaryStep := [],
    events := [Event.interceptorAttached] }

/-- Source `Test.runWithCancellation`, for runs in which the
cancellation token is never requested: attach the interceptor, clear the
failed flag, run the try-block (`runMainPhase`); the `catch` marks the
iteration failed and re-raises; the `finally` always detaches the
interceptor, runs the unexecuted-step summarization, fires the final
observer `after` notification and runs the `afterAll` hooks. -/
def runWithCancellation (cfg : ScriptCfg) (iteration : Nat) : RunOutcome :=
  -- try block
  let (st1, processed, unreached, mainOk) := runMainPhase cfg iteration (initialState cfg)
  -- catch: mark failed, re-raise
  let st1 := if mainOk then st1 else { st1 with failed := true }
  -- finally: afterRunSteps (detach, summarize), observer after, afterAll
  let st2 := { st1 with events := st1.events ++ [Event.interceptorDetached] }
  let (unreached', rows) := summarizeStepAfterStopRunning unreached
  let st2 := { st2 with summaryStep := st2.summaryStep ++ rows,
                        events := st2.events ++ [Event.summarized] }
  let st2 := { st2 with events := st2.events ++ [Event.observerAfter] }
  let st2 := { st2 with events := st2.events ++ [Event.hookRun HookKind.afterAll] }
  let r2 := runHookFn st2.settings cfg.hook.afterAll st2.browserSettings
  let st2 := { st2 with browserSettings := r2.1 }
  { ok := mainOk && r2.2, state := st2, steps := processed ++ unreached' }

/-! ## Lemmas about the unexecuted-step summarization -/

/-- The do-while loop emits one row per execution of its body: starting
from counter `i` with `c - i = d + 1`, exactly `d + 1` UNEXECUTED rows. -/
theorem repeatUnexecutedRows_eq_replicate (name : String) (c : Nat) :
    ∀ d i, c - i = d + 1 →
      repeatUnexecutedRows name c i =
        List.replicate (d + 1) { stepName := name, result := StepResult.UNEXECUTED } := by
  intro d
  induction d with
  | zero =>
    intro i hi
    rw [repeatUnexecutedRows]
    have h : ¬ (i + 1 < c) := by omega
    simp [h]
  | succ k ih =>
    intro i hi
    rw [repeatUnexecutedRows]
    have h1 : i + 1 < c := by omega
    have h2 : c - (i + 1) = k + 1 := by omega
    simp [h1, ih (i + 1) h2, List.replicate_succ]

/-- Row emission of `summarizeStepAfterStopRunning` is the in-order
concatenation of the per-step emissions. -/
theorem summarizeStepAfterStopRunning_rows (us : List Step) :
    (summarizeStepAfterStopRunning us).2 =
      us.flatMap fun u => (summarizedUnexecutedStep u).2 := by
  induction us with
  | nil => rfl
  | cons s rest ih =>
    simp [summarizeStepAfterStopRunning, ih]

/-- C1 counterexample: an unreached step carrying a repeat descriptor
with `iteration = 0` receives no UNEXECUTED row at all from the
unexecuted-step summarization — not exactly one, as the claim states
for the `iteration == 0` case. -/
theorem repeatDescriptorZero_emits_no_row :
    ¬ ((summarizeStepAfterStopRunning
        [{ name := "R",
           options := { repeatD := some { count := 3, iteration := 0 } } }]).2.length = 1) := by
  decide

/-- C1 (amended): after traversal halts, the unexecuted-step
summarization visits every unreached step in order and emits, per step:
for a repeat descriptor with `0 < iteration < count`, exactly
`count - iteration` UNEXECUTED rows, resetting the descriptor's
iteration to 0; for a step without a repeat descriptor, exactly one
UNEXECUTED row; but for a step whose repeat descriptor has
`iteration = 0`, no row at all (the descriptor stays at 0). -/
theorem summarizeUnexecuted_rows_spec (s : Step) :
    (s.options.repeatD = none →
      (summarizedUnexecutedStep s).2 =
        [{ stepName := s.name, result := StepResult.UNEXECUTED }]) ∧
    (∀ c, s.options.repeatD = some { count := c, iteration := 0 } →
      (summarizedUnexecutedStep s).2 = [] ∧
      (summarizedUnexecutedStep s).1.options.repeatD =
        some { count := c, iteration := 0 }) ∧
    (∀ c i, s.options.repeatD = some { count := c, iteration := i } →
        0 < i → i < c →
      (summarizedUnexecutedStep s).2 =
        List.replicate (c - i) { stepName := s.name, result := StepResult.UNEXECUTED } ∧
      (summarizedUnexecutedStep s).1.options.repeatD =
        some { count := c, iteration := 0 }) ∧
    (∀ us, (summarizeStepAfterStopRunning us).2 =
      us.flatMap fun u => (summarizedUnexecutedStep u).2) := by
  refine ⟨?_, ?_, ?_, summarizeStepAfterStopRunning_rows⟩
  · intro h
    simp [summarizedUnexecutedStep, countRepeatStep, h]
  · intro c h
    simp [summarizedUnexecutedStep, countRepeatStep, h]
  · intro c i h hi hic
    have hrep : repeatUnexecutedRows s.name c i =
        List.replicate (c - i) { stepName := s.name, result := StepResult.UNEXECUTED } := by
      have : c - i = (c - i - 1) + 1 := by omega
      rw [this, repeatUnexecutedRows_eq_replicate s.name c (c - i - 1) i (by omega)]
    simp [summarizedUnexecutedStep, countRepeatStep, h, hi, hrep]

/-- Witness for C1's amended theorem at a concrete step with repeat
descriptor `{count := 3, iteration := 1}`: two remaining-repetition
rows, counter reset to 0. -/
theorem summarizeUnexecuted_rows_spec_witness :
    ({ name := "W", options := { repeatD := some { count := 3, iteration := 1 } } }
        : Step).options.repeatD = some { count := 3, iteration := 1 } ∧
    (0 : Nat) < 1 ∧ (1 : Nat) < 3 ∧
    ((summarizedUnexecutedStep
        { name := "W", options := { repeatD := some { count := 3, iteration := 1 } } }).2 =
      List.replicate (3 - 1) { stepName := "W", result := StepResult.UNEXECUTED } ∧
     (summarizedUnexecutedStep
        { name := "W", options := { repeatD := some { count := 3, iteration := 1 } } }).1.options.repeatD =
      some { count := 3, iteration := 0 }) :=
  ⟨rfl, by decide, by decide,
    (summarizeUnexecuted_rows_spec
      { name := "W",
        options := { repeatD := some { count := 3, iteration := 1 } } }).2.2.1
      3 1 rfl (by decide) (by decide)⟩

/-! ## Settings restoration (runStep) -/

/-- C4: for every step (with or without option overrides, passing or
throwing), the target's settings during the body are the global
settings merged with the step's options, and the settings after the
step settle back to exactly the pre-step settings; the engine's global
settings are untouched by `runStep` itself. -/
theorem runStep_settings_restoration (st : EngineState) (s : Step) :
    (runStep st s).state.browserSettings = st.browserSettings ∧
    (runStep st s).during = mergeStepOptions st.settings s.options ∧
    (runStep st s).state.settings = st.settings := by
  cases h : s.fnOutcome <;> simp [runStep, h]

/-! ## Error classifier -/

/-- C7: classification of a raised failure — an identifying name
beginning with "AssertionError" yields kind `assertion`; otherwise a
failure already carrying the structured marker is returned unchanged
(the very same value); otherwise the bare failure is wrapped with kind
`empty` and originating-phase tag "test". -/
theorem liftToStructuredError_kinds (e : JSError) :
    (strStartsWith e.name "AssertionError" = true →
      (liftToStructuredError e).kind = "assertion" ∧
      (liftToStructuredError e).structured = true ∧
      (liftToStructuredError e).stackCopied = true) ∧
    (strStartsWith e.name "AssertionError" = false → e.structured = true →
      liftToStructuredError e = e) ∧
    (strStartsWith e.name "AssertionError" = false → e.structured = false →
      (liftToStructuredError e).kind = "empty" ∧
      (liftToStructuredError e).phase = "test" ∧
      (liftToStructuredError e).structured = true) := by
  refine ⟨?_, ?_, ?_⟩
  · intro h1
    simp [liftToStructuredError, h1]
  · intro h1 h2
    simp [liftToStructuredError, h1, h2]
  · intro h1 h2
    simp [liftToStructuredError, h1, h2]

/-- Witness for C7 at a concrete already-structured failure: the very
same value comes back. -/
theorem liftToStructuredError_kinds_witness :
    strStartsWith "TimeoutError" "AssertionError" = false ∧
    ({ name := "TimeoutError", message := "m", structured := true,
       kind := "timeout", phase := "page" } : JSError).structured = true ∧
    liftToStructuredError
      { name := "TimeoutError", message := "m", structured := true,
        kind := "timeout", phase := "page" } =
      { name := "TimeoutError", message := "m", structured := true,
        kind := "timeout", phase := "page" } :=
  ⟨by decide, rfl,
    (liftToStructuredError_kinds
      { name := "TimeoutError", message := "m", structured := true,
        kind := "timeout", phase := "page" }).2.1 (by decide) rfl⟩

/-! ## Looper -/

/-- With the cancelled flag clear and a non-positive loop count, the
while loop never exits, for any amount of fuel. -/
theorem Looper.runFuel_unbounded (fuel : Nat) :
    ∀ l : Looper, l.cancelled = false → l.loopCount ≤ 0 →
      (l.runFuel fuel).2.2 = none := by
  induction fuel with
  | zero => intro l _ _; rfl
  | succ n ih =>
    intro l hc hlc
    have hcl : l.continueLoop = true := by
      simp [Looper.continueLoop, hc, hlc]
    rcases h : Looper.runFuel { l with iterations := l.iterations + 1 } n with ⟨lf, calls, r⟩
    have hr := ih { l with iterations := l.iterations + 1 } hc hlc
    rw [h] at hr
    rw [Looper.runFuel]
    simp only [hcl, if_true, h]
    exact hr

/-- C8: `continueLoop` holds exactly when the looper is not cancelled
and either the loop count is non-positive (unbounded) or fewer
iterations than the loop count have run; and with `loopCount <= 0`, no
armed duration timer and no `stop()` call, `run` never exits the loop
(no amount of fuel suffices). -/
theorem looper_continueLoop_unbounded :
    (∀ l : Looper, l.continueLoop = true ↔
      (l.cancelled = false ∧
        (l.loopCount ≤ 0 ∨ (l.iterations : Int) < l.loopCount))) ∧
    (∀ (s : ConcreteTestSettings) (fuel : Nat),
        s.loopCount ≤ 0 → s.duration ≤ 0 →
      ((Looper.make s true).runFuel fuel).2.2 = none) := by
  constructor
  · intro l
    simp [Looper.continueLoop, Bool.and_eq_true, Bool.or_eq_true,
      Bool.not_eq_true']
    tauto
  · intro s fuel hlc _
    exact Looper.runFuel_unbounded fuel (Looper.make s true) rfl hlc

/-- Witness for C8 at `loopCount = -1`: with fuel 4 the loop has not
exited. -/
theorem looper_continueLoop_unbounded_witness :
    ({ loopCount := -1 } : ConcreteTestSettings).loopCount ≤ 0 ∧
    ({ loopCount := -1 } : ConcreteTestSettings).duration ≤ 0 ∧
    ((Looper.make { loopCount := -1 } true).runFuel 4).2.2 = none :=
  ⟨by decide, by decide,
    looper_continueLoop_unbounded.2 { loopCount := -1 } 4 (by decide) (by decide)⟩

/-- Counting lemma for the bounded loop: starting at `k` of `N`
iterations with enough fuel, the loop performs iterations `k+1 .. N`
in order and exits returning `N`. -/
theorem Looper.runFuel_counts (N : Nat) (hN : 0 < N) :
    ∀ fuel k, k ≤ N → N - k < fuel →
      Looper.runFuel { iterations := k, cancelled := false, loopCount := (N : Int) } fuel =
        ({ iterations := N, cancelled := false, loopCount := (N : Int) },
          List.range' (k + 1) (N - k), some N) := by
  intro fuel
  induction fuel with
  | zero => intro k _ h; omega
  | succ n ih =>
    intro k hk hf
    by_cases hkN : k < N
    · have hcl : Looper.continueLoop
          { iterations := k, cancelled := false, loopCount := (N : Int) } = true := by
        simp [Looper.continueLoop]
        left
        exact_mod_cast hkN
      have hrec := ih (k + 1) (by omega) (by omega)
      have hrange : N - k = (N - (k + 1)) + 1 := by omega
      rw [Looper.runFuel]
      simp only [hcl, if_true]
      rw [hrec]
      simp only [hrange, List.range'_succ]
    · have hkN' : k = N := by omega
      rw [hkN']
      have hcl : Looper.continueLoop
          { iterations := N, cancelled := false, loopCount := (N : Int) } = false := by
        simp [Looper.continueLoop]
        omega
      rw [Looper.runFuel]
      simp [hcl]

/-- C9: a looper built for `loopCount = N > 0`, no armed duration
timer, `running = true` and no `stop()` call invokes the iterator
exactly N times, with iteration numbers 1 through N in strictly
sequential order, and the loop exits returning N. -/
theorem looper_bounded_run_count (s : ConcreteTestSettings) (N fuel : Nat)
    (hN : 0 < N) (hlc : s.loopCount = (N : Int)) (_hd : s.duration ≤ 0)
    (hfuel : N < fuel) :
    (Looper.make s true).runFuel fuel =
      ({ iterations := N, cancelled := false, loopCount := (N : Int) },
        List.range' 1 N, some N) := by
  have h := Looper.runFuel_counts N hN fuel 0 (by omega) (by omega)
  simpa [Looper.make, hlc] using h

/-- Witness for C9 at `N = 3`, fuel 5: the iterator runs with
iteration numbers `[1, 2, 3]` and the loop returns 3. -/
theorem looper_bounded_run_count_witness :
    (0 : Nat) < 3 ∧
    ({ loopCount := 3 } : ConcreteTestSettings).loopCount = ((3 : Nat) : Int) ∧
    ({ loopCount := 3 } : ConcreteTestSettings).duration ≤ 0 ∧
    (3 : Nat) < 5 ∧
    (Looper.make { loopCount := 3 } true).runFuel 5 =
      ({ iterations := 3, cancelled := false, loopCount := ((3 : Nat) : Int) },
        List.range' 1 3, some 3) :=
  ⟨by decide, by decide, by decide, by decide,
    looper_bounded_run_count { loopCount := 3 } 3 5 (by decide) (by decide)
      (by decide) (by decide)⟩

/-! ## Lemmas about one iteration of the engine -/

/-- A hook sequence whose every member settles successfully never
throws out of `runHookFn`. -/
theorem runHookFn_ok (settings : ConcreteTestSettings) :
    ∀ (hooks : List HookBase) (bs : ConcreteTestSettings),
      hooks.all HookBase.ok = true → (runHookFn settings hooks bs).2 = true := by
  intro hooks
  induction hooks with
  | nil => intro bs _; rfl
  | cons h rest ih =>
    intro bs hall
    simp only [List.all_cons, Bool.and_eq_true] at hall
    simp [runHookFn, hall.1, ih _ hall.2]

/-- A step with no gating flags and no predicate. -/
def plainStep (s : Step) : Bool :=
  !s.options.pending && !s.options.skip && !s.options.once &&
    s.options.predicate == none

/-- A plain step whose body succeeds. -/
def plainPassingStep (s : Step) : Bool :=
  plainStep s && s.fnOutcome.isSuccess

/-- Hook sets whose every member settles successfully. -/
def hooksAllOk (h : Hook) : Bool :=
  h.beforeAll.all HookBase.ok && h.beforeEach.all HookBase.ok &&
    h.afterEach.all HookBase.ok && h.afterAll.all HookBase.ok

theorem callCondition_plain (s : Step) (it : Nat) (h : plainStep s = true) :
    callCondition s it = true := by
  simp only [plainStep, Bool.and_eq_true, Bool.not_eq_true', beq_iff_eq] at h
  simp [callCondition, h.1.1.1, h.1.1.2, h.1.2]

theorem StepOutcome.isSuccess_eq {o : StepOutcome} (h : o.isSuccess = true) :
    o = .success := by
  cases o with
  | success => rfl
  | failure e => simp [StepOutcome.isSuccess] at h

/-- Executor on a plain passing step with successful hooks, entered
with the failed flag clear: completes normally, appends exactly one
PASSED row, leaves the failed flag clear and the global settings
untouched. -/
theorem stepExecutor_pass (cfg : ScriptCfg) (it : Nat) (st : EngineState) (s : Step)
    (hp : plainStep s = true) (ho : s.fnOutcome = .success)
    (hhb : cfg.hook.beforeEach.all HookBase.ok = true)
    (hha : cfg.hook.afterEach.all HookBase.ok = true)
    (hf : st.failed = false) :
    ∃ st' s', stepExecutor cfg it st s = (st', s', true) ∧
      st'.summaryStep = st.summaryStep ++
        [{ stepName := s.name, result := StepResult.PASSED }] ∧
      st'.failed = false ∧ st'.settings = st.settings := by
  have hpred : s.options.predicate = none := by
    simp only [plainStep, Bool.and_eq_true, Bool.not_eq_true', beq_iff_eq] at hp
    exact hp.2
  have hcond := callCondition_plain s it hp
  have hb1 := runHookFn_ok st.settings cfg.hook.beforeEach st.browserSettings hhb
  simp only [stepExecutor, runStep, runAfterEachHook, ho, hcond, hpred, hb1,
    runHookFn_ok _ _ _ hha, hf]
  simp [hf]

/-- Executor on a plain step whose body throws, with a registered
recovery sequence that completes successfully: appends exactly one
FAILED row, clears the failed flag, sets the global `tries` to 0 and
continues normally. -/
theorem stepExecutor_fail_recovered (cfg : ScriptCfg) (it : Nat) (st : EngineState)
    (s : Step) (e : JSError)
    (hp : plainStep s = true) (ho : s.fnOutcome = .failure e)
    (hrec : lookupRecovery cfg.recoverySteps s.name = some true)
    (hhb : cfg.hook.beforeEach.all HookBase.ok = true)
    (hha : cfg.hook.afterEach.all HookBase.ok = true) :
    ∃ st' s', stepExecutor cfg it st s = (st', s', true) ∧
      st'.summaryStep = st.summaryStep ++
        [{ stepName := s.name, result := StepResult.FAILED }] ∧
      st'.failed = false ∧
      st'.settings = { st.settings with tries := 0 } := by
  have hpred : s.options.predicate = none := by
    simp only [plainStep, Bool.and_eq_true, Bool.not_eq_true', beq_iff_eq] at hp
    exact hp.2
  have hcond := callCondition_plain s it hp
  have hb1 := runHookFn_ok st.settings cfg.hook.beforeEach st.browserSettings hhb
  simp only [stepExecutor, runStep, runAfterEachHook, ho, hcond, hpred, hb1,
    hrec, callRecovery, runHookFn_ok _ _ _ hha]
  simp

/-- Executor on a plain step whose body throws with no registered
recovery: appends exactly one FAILED row, leaves the failed flag set,
sets the global `tries` to 0, and throws (aborting the traversal). -/
theorem stepExecutor_fail_unrecovered (cfg : ScriptCfg) (it : Nat) (st : EngineState)
    (s : Step) (e : JSError)
    (hp : plainStep s = true) (ho : s.fnOutcome = .failure e)
    (hrec : lookupRecovery cfg.recoverySteps s.name = none)
    (hhb : cfg.hook.beforeEach.all HookBase.ok = true) :
    ∃ st' s', stepExecutor cfg it st s = (st', s', false) ∧
      st'.summaryStep = st.summaryStep ++
        [{ stepName := s.name, result := StepResult.FAILED }] ∧
      st'.failed = true ∧
      st'.settings = { st.settings with tries := 0 } := by
  have hpred : s.options.predicate = none := by
    simp only [plainStep, Bool.and_eq_true, Bool.not_eq_true', beq_iff_eq] at hp
    exact hp.2
  have hcond := callCondition_plain s it hp
  have hb1 := runHookFn_ok st.settings cfg.hook.beforeEach st.browserSettings hhb
  simp only [stepExecutor, runStep, runAfterEachHook, ho, hcond, hpred, hb1,
    hrec, callRecovery]
  simp

/-- Traversal over a list of plain passing steps, entered with the
failed flag clear: completes with no unreached steps, appending one
PASSED row per step in order; the failed flag stays clear and the
global settings are untouched. -/
theorem runSteps_all_pass (cfg : ScriptCfg) (it : Nat)
    (hhb : cfg.hook.beforeEach.all HookBase.ok = true)
    (hha : cfg.hook.afterEach.all HookBase.ok = true) :
    ∀ (steps : List Step) (st : EngineState),
      steps.all plainPassingStep = true → st.failed = false →
      ∃ st' proc, runSteps cfg it st steps = (st', proc, [], true) ∧
        st'.summaryStep = st.summaryStep ++
          steps.map (fun s => { stepName := s.name, result := StepResult.PASSED }) ∧
        st'.failed = false ∧ st'.settings = st.settings := by
  intro steps
  induction steps with
  | nil => intro st _ hf; exact ⟨st, [], rfl, by simp, hf, rfl⟩
  | cons s rest ih =>
    intro st hall hf
    simp only [List.all_cons, Bool.and_eq_true, plainPassingStep] at hall
    obtain ⟨⟨hp, hsucc⟩, hrest⟩ := hall
    obtain ⟨st1, s1, heq1, hsum1, hf1, hset1⟩ :=
      stepExecutor_pass cfg it st s hp (StepOutcome.isSuccess_eq hsucc) hhb hha hf
    obtain ⟨st2, proc2, heq2, hsum2, hf2, hset2⟩ := ih st1 hrest hf1
    refine ⟨st2, s1 :: proc2, ?_, ?_, hf2, hset2.trans hset1⟩
    · simp [runSteps, heq1, heq2]
    · rw [hsum2, hsum1]
      simp

/-- Traversal over plain passing steps, then a failing step whose
registered recovery succeeds, then plain passing steps: the whole
traversal completes (the iteration continues past the failure), with
one PASSED row per surrounding step and exactly one FAILED row for the
failing step; the failed flag ends clear. -/
theorem runSteps_recovered (cfg : ScriptCfg) (it : Nat) (f : Step) (e : JSError)
    (hfp : plainStep f = true) (hff : f.fnOutcome = .failure e)
    (hrec : lookupRecovery cfg.recoverySteps f.name = some true)
    (hhb : cfg.hook.beforeEach.all HookBase.ok = true)
    (hha : cfg.hook.afterEach.all HookBase.ok = true)
    (post : List Step) (hpost : post.all plainPassingStep = true) :
    ∀ (pre : List Step) (st : EngineState),
      pre.all plainPassingStep = true → st.failed = false →
      ∃ st' proc, runSteps cfg it st (pre ++ f :: post) = (st', proc, [], true) ∧
        st'.summaryStep = st.summaryStep ++
          (pre.map (fun s => { stepName := s.name, result := StepResult.PASSED }) ++
            { stepName := f.name, result := StepResult.FAILED } ::
            post.map (fun s => { stepName := s.name, result := StepResult.PASSED })) ∧
        st'.failed = false := by
  intro pre
  induction pre with
  | nil =>
    intro st _ hf
    obtain ⟨st1, f1, heq1, hsum1, hf1, hset1⟩ :=
      stepExecutor_fail_recovered cfg it st f e hfp hff hrec hhb hha
    obtain ⟨st2, proc2, heq2, hsum2, hf2, hset2⟩ :=
      runSteps_all_pass cfg it hhb hha post st1 hpost hf1
    refine ⟨st2, f1 :: proc2, ?_, ?_, hf2⟩
    · simp [runSteps, heq1, heq2]
    · rw [hsum2, hsum1]
      simp
  | cons s rest ih =>
    intro st hall hf
    simp only [List.all_cons, Bool.and_eq_true, plainPassingStep] at hall
    obtain ⟨⟨hp, hsucc⟩, hrest⟩ := hall
    obtain ⟨st1, s1, heq1, hsum1, hf1, hset1⟩ :=
      stepExecutor_pass cfg it st s hp (StepOutcome.isSuccess_eq hsucc) hhb hha hf
    obtain ⟨st2, proc2, heq2, hsum2, hf2⟩ := ih st1 hrest hf1
    refine ⟨st2, s1 :: proc2, ?_, ?_, hf2⟩
    · simp [runSteps, heq1, heq2]
    · rw [hsum2, hsum1]
      simp

/-- Traversal over plain passing steps, then a failing step with no
registered recovery: the traversal aborts right after the failing step;
one PASSED row per earlier step, exactly one FAILED row for the failing
step, the declaration-order suffix after it unreached, and the failed
flag set. -/
theorem runSteps_unrecovered (cfg : ScriptCfg) (it : Nat) (f : Step) (e : JSError)
    (hfp : plainStep f = true) (hff : f.fnOutcome = .failure e)
    (hrec : lookupRecovery cfg.recoverySteps f.name = none)
    (hhb : cfg.hook.beforeEach.all HookBase.ok = true)
    (hha : cfg.hook.afterEach.all HookBase.ok = true)
    (post : List Step) :
    ∀ (pre : List Step) (st : EngineState),
      pre.all plainPassingStep = true → st.failed = false →
      ∃ st' proc, runSteps cfg it st (pre ++ f :: post) = (st', proc, post, false) ∧
        st'.summaryStep = st.summaryStep ++
          (pre.map (fun s => { stepName := s.name, result := StepResult.PASSED }) ++
            [{ stepName := f.name, result := StepResult.FAILED }]) ∧
        st'.failed = true := by
  intro pre
  induction pre with
  | nil =>
    intro st _ hf
    obtain ⟨st1, f1, heq1, hsum1, hf1, hset1⟩ :=
      stepExecutor_fail_unrecovered cfg it st f e hfp hff hrec hhb
    refine ⟨st1, [f1], ?_, ?_, hf1⟩
    · simp [runSteps, heq1]
    · rw [hsum1]
      simp
  | cons s rest ih =>
    intro st hall hf
    simp only [List.all_cons, Bool.and_eq_true, plainPassingStep] at hall
    obtain ⟨⟨hp, hsucc⟩, hrest⟩ := hall
    obtain ⟨st1, s1, heq1, hsum1, hf1, hset1⟩ :=
      stepExecutor_pass cfg it st s hp (StepOutcome.isSuccess_eq hsucc) hhb hha hf
    obtain ⟨st2, proc2, heq2, hsum2, hf2⟩ := ih st1 hrest hf1
    refine ⟨st2, s1 :: proc2, ?_, ?_, hf2⟩
    · simp [runSteps, heq1, heq2]
    · rw [hsum2, hsum1]
      simp

/-- With data available and successful `beforeAll` hooks, the try-block
reduces to the step traversal from the post-setup state. -/
theorem runMainPhase_eq_runSteps (cfg : ScriptCfg) (it : Nat)
    (hdata : cfg.dataExhausted = false)
    (hba : cfg.hook.beforeAll.all HookBase.ok = true) :
    runMainPhase cfg it (initialState cfg) =
      runSteps cfg it
        { settings := cfg.settings,
          browserSettings :=
            (runHookFn cfg.settings cfg.hook.beforeAll cfg.settings).1,
          failed := false, summaryStep := [],
          events := [Event.interceptorAttached, Event.observerBefore,
            Event.hookRun HookKind.beforeAll] }
        cfg.steps := by
  simp [runMainPhase, initialState, hdata, runHookFn_ok _ _ _ hba]

/-- C2: a step that fails and whose registered recovery sequence
completes successfully does not end the iteration — the run finishes
without error, the failed flag ends clear, the summary is one PASSED
row per earlier step, exactly one FAILED row for the failing step (not
one per recovery attempt), then one PASSED row per later step in
declaration order (so every subsequent step still executed). -/
theorem recovered_step_iteration_continues (cfg : ScriptCfg) (it : Nat)
    (pre post : List Step) (f : Step) (e : JSError)
    (hsteps : cfg.steps = pre ++ f :: post)
    (hpre : pre.all plainPassingStep = true)
    (hpost : post.all plainPassingStep = true)
    (hfp : plainStep f = true) (hff : f.fnOutcome = .failure e)
    (hrec : lookupRecovery cfg.recoverySteps f.name = some true)
    (hhooks : hooksAllOk cfg.hook = true)
    (hdata : cfg.dataExhausted = false) :
    (runWithCancellation cfg it).ok = true ∧
    (runWithCancellation cfg it).state.failed = false ∧
    (runWithCancellation cfg it).state.summaryStep =
      pre.map (fun s => { stepName := s.name, result := StepResult.PASSED }) ++
        { stepName := f.name, result := StepResult.FAILED } ::
        post.map (fun s => { stepName := s.name, result := StepResult.PASSED }) ∧
    ((runWithCancellation cfg it).state.summaryStep.countP
        (fun r => r.result == StepResult.FAILED)) = 1 := by
  simp only [hooksAllOk, Bool.and_eq_true] at hhooks
  obtain ⟨⟨⟨hball, hbe⟩, hae⟩, haall⟩ := hhooks
  obtain ⟨st', proc, heqS, hsum, hfail⟩ :=
    runSteps_recovered cfg it f e hfp hff hrec hbe hae post hpost pre
      { settings := cfg.settings,
        browserSettings :=
          (runHookFn cfg.settings cfg.hook.beforeAll cfg.settings).1,
        failed := false, summaryStep := [],
        events := [Event.interceptorAttached, Event.observerBefore,
          Event.hookRun HookKind.beforeAll] }
      hpre rfl
  have hM : runMainPhase cfg it (initialState cfg) = (st', proc, [], true) := by
    rw [runMainPhase_eq_runSteps cfg it hdata hball, hsteps, heqS]
  have haall' : ∀ s bs, (runHookFn s cfg.hook.afterAll bs).2 = true :=
    fun s bs => runHookFn_ok s cfg.hook.afterAll bs haall
  have hsum' : st'.summaryStep =
      pre.map (fun s => { stepName := s.name, result := StepResult.PASSED }) ++
        { stepName := f.name, result := StepResult.FAILED } ::
        post.map (fun s => { stepName := s.name, result := StepResult.PASSED }) := by
    rw [hsum]
    simp
  have hcount : ∀ l : List Step,
      ((l.map fun s =>
          ({ stepName := s.name, result := StepResult.PASSED } : SummaryStep)).countP
        (fun r => r.result == StepResult.FAILED)) = 0 := by
    intro l
    rw [List.countP_eq_zero]
    intro a ha
    simp only [List.mem_map] at ha
    obtain ⟨s, _, rfl⟩ := ha
    simp
  refine ⟨?_, ?_, ?_, ?_⟩
  · simp [runWithCancellation, hM, haall']
  · simp [runWithCancellation, hM, hfail, summarizeStepAfterStopRunning]
  · simp [runWithCancellation, hM, hsum', summarizeStepAfterStopRunning]
  · simp [runWithCancellation, hM, hsum', summarizeStepAfterStopRunning,
      List.countP_append, List.countP_cons, hcount]

/-- Concrete three-step script for the C2 witness: B fails, recovery
for B is registered and succeeds. -/
def cfgC2 : ScriptCfg :=
  { steps := [{ name := "A" },
              { name := "B", fnOutcome := .failure { name := "Error", message := "boom" } },
              { name := "C" }],
    recoverySteps := [("B", true)] }

/-- Witness for C2: on `cfgC2`, the run completes without error, the
failed flag ends clear, and the summary is `[PASSED A, FAILED B,
PASSED C]` — one FAILED row and C still executed. -/
theorem recovered_step_iteration_continues_witness :
    lookupRecovery cfgC2.recoverySteps "B" = some true ∧
    (runWithCancellation cfgC2 1).ok = true ∧
    (runWithCancellation cfgC2 1).state.failed = false ∧
    (runWithCancellation cfgC2 1).state.summaryStep =
      [{ stepName := "A", result := StepResult.PASSED },
       { stepName := "B", result := StepResult.FAILED },
       { stepName := "C", result := StepResult.PASSED }] := by
  have h := recovered_step_iteration_continues cfgC2 1
    [{ name := "A" }] [{ name := "C" }]
    { name := "B", fnOutcome := .failure { name := "Error", message := "boom" } }
    { name := "Error", message := "boom" }
    rfl (by decide) (by decide) (by decide) rfl (by decide) (by decide) rfl
  exact ⟨by decide, h.1, h.2.1, by simpa using h.2.2.1⟩

/-- For unreached steps carrying no repeat descriptor, the per-step
emission is exactly one UNEXECUTED row each. -/
theorem summarize_no_repeat (post : List Step)
    (h : post.all (fun s => s.options.repeatD == none) = true) :
    (post.flatMap fun s => (summarizedUnexecutedStep s).2) =
      post.map (fun s => { stepName := s.name, result := StepResult.UNEXECUTED }) := by
  induction post with
  | nil => rfl
  | cons s rest ih =>
    simp only [List.all_cons, Bool.and_eq_true, beq_iff_eq] at h
    rw [List.flatMap_cons, List.map_cons, ih h.2]
    simp [summarizedUnexecutedStep, countRepeatStep, h.1]

/-- C3 counterexample: steps `[A, B, C]` where B throws with no
registered recovery and C carries a repeat descriptor
`{count := 2, iteration := 0}`.  The claim requires an UNEXECUTED row
for every step after B, but C receives no row at all. -/
theorem abort_summary_misses_repeat_step :
    (runWithCancellation
        { steps := [{ name := "A" },
                    { name := "B",
                      fnOutcome := .failure { name := "Error", message := "boom" } },
                    { name := "C",
                      options := { repeatD := some { count := 2, iteration := 0 } } }] }
        1).state.summaryStep =
      [{ stepName := "A", result := StepResult.PASSED },
       { stepName := "B", result := StepResult.FAILED }] ∧
    ¬ ∃ r ∈ (runWithCancellation
        { steps := [{ name := "A" },
                    { name := "B",
                      fnOutcome := .failure { name := "Error", message := "boom" } },
                    { name := "C",
                      options := { repeatD := some { count := 2, iteration := 0 } } }] }
        1).state.summaryStep, r.stepName = "C" := by
  decide

/-- C3 (amended): a step that fails with no registered recovery aborts
the iteration right after itself — the run re-raises (`ok = false`),
the failed flag ends set, the summary is one PASSED row per earlier
step, exactly one FAILED row for the failing step, then the
unexecuted-step emission of each later step in declaration order; when
no later step carries a repeat descriptor this is exactly one
UNEXECUTED row per later step (a later step with a repeat descriptor at
iteration 0 receives no row). -/
theorem unrecovered_failure_aborts_iteration (cfg : ScriptCfg) (it : Nat)
    (pre post : List Step) (f : Step) (e : JSError)
    (hsteps : cfg.steps = pre ++ f :: post)
    (hpre : pre.all plainPassingStep = true)
    (hfp : plainStep f = true) (hff : f.fnOutcome = .failure e)
    (hrec : lookupRecovery cfg.recoverySteps f.name = none)
    (hhooks : hooksAllOk cfg.hook = true)
    (hdata : cfg.dataExhausted = false) :
    (runWithCancellation cfg it).ok = false ∧
    (runWithCancellation cfg it).state.failed = true ∧
    (runWithCancellation cfg it).state.summaryStep =
      pre.map (fun s => { stepName := s.name, result := StepResult.PASSED }) ++
        { stepName := f.name, result := StepResult.FAILED } ::
        (post.flatMap fun s => (summarizedUnexecutedStep s).2) ∧
    (post.all (fun s => s.options.repeatD == none) = true →
      (runWithCancellation cfg it).state.summaryStep =
        pre.map (fun s => { stepName := s.name, result := StepResult.PASSED }) ++
          { stepName := f.name, result := StepResult.FAILED } ::
          post.map (fun s => { stepName := s.name, result := StepResult.UNEXECUTED })) := by
  simp only [hooksAllOk, Bool.and_eq_true] at hhooks
  obtain ⟨⟨⟨hball, hbe⟩, hae⟩, haall⟩ := hhooks
  obtain ⟨st', proc, heqS, hsum, hfail⟩ :=
    runSteps_unrecovered cfg it f e hfp hff hrec hbe hae post pre
      { settings := cfg.settings,
        browserSettings :=
          (runHookFn cfg.settings cfg.hook.beforeAll cfg.settings).1,
        failed := false, summaryStep := [],
        events := [Event.interceptorAttached, Event.observerBefore,
          Event.hookRun HookKind.beforeAll] }
      hpre rfl
  have hM : runMainPhase cfg it (initialState cfg) = (st', proc, post, false) := by
    rw [runMainPhase_eq_runSteps cfg it hdata hball, hsteps, heqS]
  have hsum' : st'.summaryStep =
      pre.map (fun s => { stepName := s.name, result := StepResult.PASSED }) ++
        [{ stepName := f.name, result := StepResult.FAILED }] := by
    rw [hsum]
    simp
  have hmain : (runWithCancellation cfg it).state.summaryStep =
      pre.map (fun s => { stepName := s.name, result := StepResult.PASSED }) ++
        { stepName := f.name, result := StepResult.FAILED } ::
        (post.flatMap fun s => (summarizedUnexecutedStep s).2) := by
    rcases hS : summarizeStepAfterStopRunning post with ⟨post', rows⟩
    have hrows : rows = post.flatMap fun s => (summarizedUnexecutedStep s).2 := by
      have := summarizeStepAfterStopRunning_rows post
      rw [hS] at this
      exact this
    simp [runWithCancellation, hM, hS, hsum', hrows]
  refine ⟨?_, ?_, hmain, ?_⟩
  · simp [runWithCancellation, hM]
  · simp [runWithCancellation, hM]
  · intro hnorep
    rw [hmain, summarize_no_repeat post hnorep]

/-- Witness for C3's amended theorem (scenario A): steps `[A, B, C]`
with B throwing and no recovery registered, C plain — summary
`[PASSED A, FAILED B, UNEXECUTED C]` and the iteration re-raises. -/
theorem unrecovered_failure_aborts_iteration_witness :
    lookupRecovery
      ({ steps := [{ name := "A" },
                   { name := "B",
                     fnOutcome := .failure { name := "Error", message := "boom" } },
                   { name := "C" }] } : ScriptCfg).recoverySteps "B" = none ∧
    (runWithCancellation
        { steps := [{ name := "A" },
                    { name := "B",
                      fnOutcome := .failure { name := "Error", message := "boom" } },
                    { name := "C" }] } 1).ok = false ∧
    (runWithCancellation
        { steps := [{ name := "A" },
                    { name := "B",
                      fnOutcome := .failure { name := "Error", message := "boom" } },
                    { name := "C" }] } 1).state.failed = true ∧
    (runWithCancellation
        { steps := [{ name := "A" },
                    { name := "B",
                      fnOutcome := .failure { name := "Error", message := "boom" } },
                    { name := "C" }] } 1).state.summaryStep =
      [{ stepName := "A", result := StepResult.PASSED },
       { stepName := "B", result := StepResult.FAILED },
       { stepName := "C", result := StepResult.UNEXECUTED }] := by
  have h := unrecovered_failure_aborts_iteration
    { steps := [{ name := "A" },
                { name := "B",
                  fnOutcome := .failure { name := "Error", message := "boom" } },
                { name := "C" }] } 1
    [{ name := "A" }] [{ name := "C" }]
    { name := "B", fnOutcome := .failure { name := "Error", message := "boom" } }
    { name := "Error", message := "boom" }
    rfl (by decide) (by decide) rfl rfl (by decide) rfl
  exact ⟨rfl, h.1, h.2.1, by simpa using h.2.2.2 (by decide)⟩

/-- C5: whatever way the iteration ends (normal completion, data
exhaustion, `beforeAll` hook error, step failure, abort through
exhausted recovery, `afterEach` failure), the guaranteed-cleanup phase
runs: the trace always ends with the interceptor detachment, the
unexecuted-step summarization, the final observer `after` notification
and the `afterAll` hook-sequence invocation, in that order. -/
theorem cleanup_phase_unconditional (cfg : ScriptCfg) (it : Nat) :
    ∃ pre, (runWithCancellation cfg it).state.events =
      pre ++ [Event.interceptorDetached, Event.summarized,
              Event.observerAfter, Event.hookRun HookKind.afterAll] := by
  rcases hM : runMainPhase cfg it (initialState cfg) with ⟨st1, proc, un, mainOk⟩
  rcases hS : summarizeStepAfterStopRunning un with ⟨un', rows⟩
  cases mainOk
  · exact ⟨st1.events, by simp [runWithCancellation, hM, hS]⟩
  · exact ⟨st1.events, by simp [runWithCancellation, hM, hS]⟩

/-! ## The tries-override side effect of recovery dispatch -/

/-- Invariant tying the event trace to the global settings: every
recorded recovery dispatch carried the tries-override 0, and if any
recovery was dispatched the global `tries` field is 0. -/
def RecInv (events : List Event) (tries : Nat) : Prop :=
  ∀ k, Event.recoveryCalled k ∈ events → k = 0 ∧ tries = 0

theorem RecInv_extend (es es' : List Event) (t : Nat)
    (hnorec : ∀ k, Event.recoveryCalled k ∉ es')
    (h : RecInv es t) : RecInv (es ++ es') t := by
  intro k hk
  rcases List.mem_append.1 hk with h1 | h2
  · exact h k h1
  · exact absurd h2 (hnorec k)

theorem RecInv_recovery (es es' : List Event) (t : Nat)
    (h : RecInv es t)
    (hes' : ∀ k, Event.recoveryCalled k ∈ es' → k = 0) :
    RecInv (es ++ es') 0 := by
  intro k hk
  rcases List.mem_append.1 hk with h1 | h2
  · exact ⟨(h k h1).1, rfl⟩
  · exact ⟨hes' k h2, rfl⟩

/-- One executor call preserves the invariant: observer and hook events
carry no recovery dispatch, and the recovery branch itself assigns 0 to
the global `tries` while recording the dispatched override 0. -/
theorem stepExecutor_RecInv (cfg : ScriptCfg) (it : Nat) (st : EngineState) (s : Step)
    (h : RecInv st.events st.settings.tries) :
    RecInv (stepExecutor cfg it st s).1.events
      (stepExecutor cfg it st s).1.settings.tries := by
  cases hfn : s.fnOutcome with
  | success =>
    simp only [stepExecutor, runStep, runAfterEachHook, hfn]
    split
    · exact RecInv_extend _ _ _ (by intro k; simp) h
    · split
      · exact RecInv_extend _ _ _ (by intro k; simp) h
      · split
        · exact RecInv_extend _ _ _ (by intro k; simp) h
        · split
          · split
            · simpa using RecInv_recovery st.events _ st.settings.tries h (by intro k; simp)
            · simpa using RecInv_recovery st.events _ st.settings.tries h (by intro k; simp)
          · simpa using RecInv_extend st.events _ st.settings.tries (by intro k; simp) h
  | failure e =>
    simp only [stepExecutor, runStep, runAfterEachHook, hfn]
    split
    · exact RecInv_extend _ _ _ (by intro k; simp) h
    · split
      · exact RecInv_extend _ _ _ (by intro k; simp) h
      · split
        · exact RecInv_extend _ _ _ (by intro k; simp) h
        · split
          · split
            · simpa using RecInv_recovery st.events _ st.settings.tries h (by intro k; simp)
            · simpa using RecInv_recovery st.events _ st.settings.tries h (by intro k; simp)
          · simpa using RecInv_extend st.events _ st.settings.tries (by intro k; simp) h

/-- The step traversal preserves the recovery invariant. -/
theorem runSteps_RecInv (cfg : ScriptCfg) (it : Nat) :
    ∀ (steps : List Step) (st : EngineState),
      RecInv st.events st.settings.tries →
      RecInv (runSteps cfg it st steps).1.events
        (runSteps cfg it st steps).1.settings.tries := by
  intro steps
  induction steps with
  | nil => intro st h; exact h
  | cons s rest ih =>
    intro st h
    rcases heq : stepExecutor cfg it st s with ⟨st', s', flag⟩
    have h' := stepExecutor_RecInv cfg it st s h
    rw [heq] at h'
    cases flag
    · simpa [runSteps, heq] using h'
    · rcases heq2 : runSteps cfg it st' rest with ⟨stf, rest'⟩
      have h2 := ih st' h'
      rw [heq2] at h2
      simpa [runSteps, heq, heq2] using h2

/-- The try-block preserves the recovery invariant. -/
theorem runMainPhase_RecInv (cfg : ScriptCfg) (it : Nat) (st : EngineState)
    (h : RecInv st.events st.settings.tries) :
    RecInv (runMainPhase cfg it st).1.events
      (runMainPhase cfg it st).1.settings.tries := by
  simp only [runMainPhase]
  split
  · exact RecInv_extend _ _ _ (by intro k; simp) h
  · split
    · exact RecInv_extend _ _ _ (by intro k; simp)
        (RecInv_extend _ _ _ (by intro k; simp) h)
    · exact runSteps_RecInv cfg it cfg.steps _
        (RecInv_extend _ _ _ (by intro k; simp)
          (RecInv_extend _ _ _ (by intro k; simp) h))

/-- C10: whenever a step fails and the engine dispatches recovery, the
tries-override passed to `callRecovery` is the value 0 — the value of
the assignment expression `(this.settings.tries = 0)` — and the global
settings field `tries` is 0 from that point on, whatever retry count
the script's settings configured. -/
theorem recovery_tries_override_zero (cfg : ScriptCfg) (it k : Nat)
    (h : Event.recoveryCalled k ∈ (runWithCancellation cfg it).state.events) :
    k = 0 ∧ (runWithCancellation cfg it).state.settings.tries = 0 := by
  have h0 : RecInv (initialState cfg).events (initialState cfg).settings.tries := by
    intro k hk
    simp [initialState] at hk
  have h1 := runMainPhase_RecInv cfg it (initialState cfg) h0
  rcases hM : runMainPhase cfg it (initialState cfg) with ⟨st1, proc, un, mainOk⟩
  rw [hM] at h1
  rcases hS : summarizeStepAfterStopRunning un with ⟨un', rows⟩
  have hfinal : RecInv (runWithCancellation cfg it).state.events
      (runWithCancellation cfg it).state.settings.tries := by
    cases mainOk
    · simpa [runWithCancellation, hM, hS] using
        RecInv_extend st1.events
          [Event.interceptorDetached, Event.summarized, Event.observerAfter,
            Event.hookRun HookKind.afterAll] st1.settings.tries
          (by intro k; simp) h1
    · simpa [runWithCancellation, hM, hS] using
        RecInv_extend st1.events
          [Event.interceptorDetached, Event.summarized, Event.observerAfter,
            Event.hookRun HookKind.afterAll] st1.settings.tries
          (by intro k; simp) h1
  exact hfinal k h

/-- Concrete script for the C10 witness: the settings configure 7
retry tries, step B fails with a registered succeeding recovery. -/
def cfgC10 : ScriptCfg :=
  { settings := { tries := 7 },
    steps := [{ name := "B",
                fnOutcome := .failure { name := "Error", message := "boom" } }],
    recoverySteps := [("B", true)] }

/-- Witness for C10: on `cfgC10` a recovery dispatch with override 0 is
recorded and the global `tries` (configured as 7) ends at 0. -/
theorem recovery_tries_override_zero_witness :
    Event.recoveryCalled 0 ∈ (runWithCancellation cfgC10 1).state.events ∧
    ((0 : Nat) = 0 ∧ (runWithCancellation cfgC10 1).state.settings.tries = 0) :=
  ⟨by decide, recovery_tries_override_zero cfgC10 1 0 (by decide)⟩
